import Mathlib

/-!
Verification of the dsl-accounts ledger engine (`balance.py`).

The development shallowly embeds the parts of `balance.py` that the checked
properties concern: the forecast reconciliation (`forecast_filter`), the
month×tag grid accumulation with running balances (`grid_accumulate`), the
summation and party reports (`subp_sum`, `subp_party`), the statistics
aggregation (`stats_rowset`, the Average rollup of `create_stats`, and the
projection helpers of `subp_stats`), and the duplicate-dues check
(`subp_check_doubletxn`).

Python `Decimal` values are embedded as exact rationals (`ℚ`): ledger
arithmetic is addition (exact in `Decimal` for these magnitudes), and every
explicit rounding step of the source is embedded as an explicit operation on
`ℚ`.  Python's `int(...)` conversion of a `Decimal` truncates toward zero and
is embedded as `ratTrunc`; `Decimal.to_integral_exact(rounding=ROUND_FLOOR)`
is embedded as `to_integral_exact_floor`.  A raised Python exception is
embedded as `Except.error` / `Option.none`.

The classes `Row` and `RowSet` live in `lib/row.py` and `lib/rowset.py`,
which are not part of the sources here; their operations used by `balance.py`
(`value`, `isforecast`, `group_by`, `filter`, `append`) are modelled from the
spec, as marked on each definition.
-/

/-- A transaction record, with the fields the checked properties depend on.
`value` is the exact signed decimal amount, `month` the year-month bucket key
(embedded as an integer month index, only its ordering matters), `hashtag`
the optional category tag, and `isforecast` the predicted-future flag. -/
structure Row where
  value : ℚ
  month : ℤ
  hashtag : Option String
  isforecast : Bool
deriving DecidableEq

/-- A ledger collection: an ordered sequence of transaction records. -/
abbrev RowSet := List Row

/-- Modelled from the spec: `RowSet.value` (lib/rowset.py, not under src/) is
the decimal-exact sum of all members' values. -/
def RowSet.value (rows : RowSet) : ℚ :=
  (rows.map Row.value).sum

/-- Modelled from the spec: `RowSet.isforecast` (lib/rowset.py, not under
src/) is true if any member is a forecast record. -/
def RowSet.isforecast (rows : RowSet) : Bool :=
  rows.any Row.isforecast

/-- Modelled from the spec: the sub-collection that `group_by(key)`
(lib/rowset.py, not under src/) associates to the key value `k` — the members
whose derived key equals `k`, in order.  `group_by` is a partition: every
member appears in exactly one sub-collection. -/
def groupGet {κ : Type} [DecidableEq κ] (key : Row → κ) (rows : RowSet) (k : κ) : RowSet :=
  rows.filter (fun r => decide (key r = k))

/-- Modelled from the spec: the key set of `group_by(key)` (lib/rowset.py,
not under src/) — each distinct derived key of a member, in first-appearance
order (Python dict insertion order; callers sort when order matters). -/
def groupKeys {κ : Type} [DecidableEq κ] (key : Row → κ) (rows : RowSet) : List κ :=
  (rows.map key).dedup

/-- Embeds `forecast_filter` (balance.py lines 98-116): if the rowset has
forecast data, and exactly one member is forecast, and real members exist,
return the real members; otherwise return the rowset unchanged. -/
def forecast_filter (rows : RowSet) : RowSet :=
  if RowSet.isforecast rows = false then rows
  else if (groupGet Row.isforecast rows true).length ≠ 1 then rows
  else if groupGet Row.isforecast rows false = [] then rows
  else groupGet Row.isforecast rows false

/-- Embeds `subp_sum` (balance.py lines 310-317): raise `ValueError` on a
negative total, otherwise return the total (its final string formatting is
rendering, outside the core). -/
def subp_sum (rows : RowSet) : Except String ℚ :=
  if RowSet.value rows < 0 then
    Except.error ("Impossible negative value cash balance: " ++ toString (RowSet.value rows))
  else
    Except.ok (RowSet.value rows)

/-- Embeds `subp_party` (balance.py lines 345-347). -/
def subp_party (rows : RowSet) : String :=
  if 0 < RowSet.value rows then ("Success") else ("Fail")

lemma groupGet_isforecast_true (rows : RowSet) :
    groupGet Row.isforecast rows true = rows.filter Row.isforecast := by
  unfold groupGet
  apply List.filter_congr
  intro r _
  cases r.isforecast <;> simp

lemma groupGet_isforecast_false (rows : RowSet) :
    groupGet Row.isforecast rows false = rows.filter (fun r => !r.isforecast) := by
  unfold groupGet
  apply List.filter_congr
  intro r _
  cases r.isforecast <;> simp

lemma forecast_filter_no_forecast (rows : RowSet) (h : ∀ r ∈ rows, r.isforecast = false) :
    forecast_filter rows = rows := by
  have hf : RowSet.isforecast rows = false := by
    unfold RowSet.isforecast
    rw [List.any_eq_false]
    intro r hr
    simp [h r hr]
  unfold forecast_filter
  rw [if_pos hf]

/-- Claim C1: for every collection passed to `forecast_filter`: if no member
is a forecast record, or if the number of forecast members is not exactly
one, or if there are no non-forecast members, the operation returns the
input collection unchanged; otherwise (exactly one forecast member and at
least one non-forecast member) it returns exactly the sub-collection of
non-forecast members. -/
theorem forecast_filter_spec (rows : RowSet) :
    ((∀ r ∈ rows, r.isforecast = false) → forecast_filter rows = rows) ∧
    (rows.countP Row.isforecast ≠ 1 → forecast_filter rows = rows) ∧
    ((∀ r ∈ rows, r.isforecast = true) → forecast_filter rows = rows) ∧
    (rows.countP Row.isforecast = 1 → (∃ r ∈ rows, r.isforecast = false) →
      forecast_filter rows = rows.filter (fun r => !r.isforecast)) := by
  refine ⟨forecast_filter_no_forecast rows, ?_, ?_, ?_⟩
  · intro h
    unfold forecast_filter
    by_cases hf : RowSet.isforecast rows = false
    · rw [if_pos hf]
    · rw [if_neg hf, if_pos]
      rw [groupGet_isforecast_true, ← List.countP_eq_length_filter]
      exact h
  · intro h
    unfold forecast_filter
    by_cases hf : RowSet.isforecast rows = false
    · rw [if_pos hf]
    · by_cases h1 : (groupGet Row.isforecast rows true).length ≠ 1
      · rw [if_neg hf, if_pos h1]
      · rw [if_neg hf, if_neg h1, if_pos]
        rw [groupGet_isforecast_false, List.filter_eq_nil_iff]
        intro r hr
        simp [h r hr]
  · intro h1 hex
    have hf : ¬ RowSet.isforecast rows = false := by
      obtain ⟨r, hr, hrt⟩ : ∃ r ∈ rows, r.isforecast = true := by
        have hpos : 0 < rows.countP Row.isforecast := by omega
        rw [List.countP_pos_iff] at hpos
        exact hpos
      unfold RowSet.isforecast
      intro hall
      rw [List.any_eq_false] at hall
      exact hall r hr hrt
    have hlen : ¬ (groupGet Row.isforecast rows true).length ≠ 1 := by
      rw [groupGet_isforecast_true, ← List.countP_eq_length_filter]
      omega
    have hne : ¬ groupGet Row.isforecast rows false = [] := by
      rw [groupGet_isforecast_false]
      intro hnil
      rw [List.filter_eq_nil_iff] at hnil
      obtain ⟨r, hr, hrf⟩ := hex
      have := hnil r hr
      simp [hrf] at this
    unfold forecast_filter
    rw [if_neg hf, if_neg hlen, if_neg hne, groupGet_isforecast_false]

/-- Witness collection for the reconciliation case of `forecast_filter_spec`:
one forecast member and one real member. -/
def wRowsC1 : RowSet :=
  [⟨100, 0, some ("rent"), true⟩, ⟨90, 0, some ("rent"), false⟩]

/-- Witness for C1: on a concrete collection with exactly one forecast member
and one real member, `forecast_filter` returns the real member. -/
theorem forecast_filter_spec_witness :
    forecast_filter wRowsC1 = [⟨90, 0, some ("rent"), false⟩] := by
  have h := (forecast_filter_spec wRowsC1).2.2.2 (by decide)
    ⟨⟨90, 0, some ("rent"), false⟩, by simp [wRowsC1], by decide⟩
  rw [h]
  rfl

/-- Claim C5: `subp_sum` raises a fatal error if and only if the decimal sum
of all rows is strictly negative; for every collection whose sum is at least
zero it returns the sum without error. -/
theorem subp_sum_spec (rows : RowSet) :
    ((∃ e, subp_sum rows = Except.error e) ↔ RowSet.value rows < 0) ∧
    (0 ≤ RowSet.value rows → subp_sum rows = Except.ok (RowSet.value rows)) := by
  constructor
  · constructor
    · intro ⟨e, he⟩
      by_contra hlt
      unfold subp_sum at he
      rw [if_neg hlt] at he
      exact Except.noConfusion he
    · intro hlt
      refine ⟨"Impossible negative value cash balance: " ++ toString (RowSet.value rows), ?_⟩
      unfold subp_sum
      rw [if_pos hlt]
  · intro hge
    unfold subp_sum
    rw [if_neg (by linarith)]

/-- Witness collection with a zero total for C5 and C10: the sum report
accepts a zero balance while the party report answers Fail on it. -/
def wRowsZero : RowSet :=
  [⟨0, 0, some ("a"), false⟩]

lemma wRowsZero_value : RowSet.value wRowsZero = 0 := by
  simp [RowSet.value, wRowsZero]

/-- Witness for C5: a concrete collection with total exactly zero is
returned without error. -/
theorem subp_sum_spec_witness : subp_sum wRowsZero = Except.ok 0 := by
  have h := (subp_sum_spec wRowsZero).2 (le_of_eq wRowsZero_value.symm)
  rw [h, wRowsZero_value]

/-- Claim C10: `subp_party` returns Success if and only if the decimal sum of
all rows is strictly positive; a balance of exactly zero yields Fail, and no
error is raised (the report is a total function of the collection). -/
theorem subp_party_spec (rows : RowSet) :
    (subp_party rows = ("Success") ↔ 0 < RowSet.value rows) ∧
    (RowSet.value rows = 0 → subp_party rows = ("Fail")) := by
  constructor
  · constructor
    · intro h
      by_contra hpos
      unfold subp_party at h
      rw [if_neg hpos] at h
      exact absurd h (by decide)
    · intro hpos
      unfold subp_party
      rw [if_pos hpos]
  · intro hz
    unfold subp_party
    rw [if_neg (by rw [hz]; exact lt_irrefl 0)]

/-- Witness for C10: the concrete zero-balance collection yields Fail. -/
theorem subp_party_spec_witness : subp_party wRowsZero = ("Fail") :=
  (subp_party_spec wRowsZero).2 wRowsZero_value

/-- Embeds the month grouping of `grid_accumulate` (balance.py line 127): the
sub-collection of `rows` for month `m`. -/
def monthRows (rows : RowSet) (m : ℤ) : RowSet :=
  groupGet Row.month rows m

/-- Embeds the distinct months of the input (`months_present`, balance.py
lines 125-129), in first-appearance order. -/
def monthsPresent (rows : RowSet) : List ℤ :=
  groupKeys Row.month rows

/-- Embeds `sorted(months_present)` (balance.py line 150): the distinct
months in ascending order. -/
def sortedMonths (rows : RowSet) : List ℤ :=
  (rows.map Row.month).toFinset.sort (fun a b => a ≤ b)

/-- Embeds the tag key set of one month (`months[month].group_by('hashtag')`,
balance.py line 132). -/
def monthTags (rows : RowSet) (m : ℤ) : List (Option String) :=
  groupKeys Row.hashtag (monthRows rows m)

/-- Embeds one grid cell after reconciliation
(`tagrows = forecast_filter(tags[tag])`, balance.py line 135): the rows of
month `m` carrying tag `t`, passed through `forecast_filter`. -/
def cellRows (rows : RowSet) (m : ℤ) (t : Option String) : RowSet :=
  forecast_filter (groupGet Row.hashtag (monthRows rows m) t)

/-- Embeds the per-month total rowset (`totals[month]`, balance.py lines 130
and 144): all reconciled tag cells of month `m` appended together. -/
def monthTotal (rows : RowSet) (m : ℤ) : RowSet :=
  ((monthTags rows m).map (cellRows rows m)).flatten

/-- Embeds the grand total rowset (`totals['total']`, balance.py lines 124
and 145): every reconciled tag cell of every month appended together. -/
def grandTotal (rows : RowSet) : RowSet :=
  ((monthsPresent rows).map (fun m => monthTotal rows m)).flatten

/-- Embeds the running-balance loop of `grid_accumulate` (balance.py lines
147-164).  Each emitted entry is `(month, running numeric total, forecast
taint)`: the source stores the string `'~' + str(total)` when the taint flag
is set and the bare number otherwise (its `to_integral_exact` step only
reformats an integral value and does not change it), so the numeric total
and the marker are carried here as a pair. -/
def runGo (rows : RowSet) : List ℤ → ℚ → Bool → List (ℤ × ℚ × Bool)
  | [], _, _ => []
  | m :: ms, acc, fc =>
    let fc2 := fc || RowSet.isforecast (monthTotal rows m)
    let acc2 := acc + RowSet.value (monthTotal rows m)
    (m, acc2, fc2) :: runGo rows ms acc2 fc2

/-- Embeds `running_totals` of `grid_accumulate` (balance.py lines 147-164):
the running-balance entries over the sorted months, starting from a zero
total and an unset taint flag. -/
def runningEntries (rows : RowSet) : List (ℤ × ℚ × Bool) :=
  runGo rows (sortedMonths rows) 0 false

lemma runGo_months (rows : RowSet) (ms : List ℤ) : ∀ (acc : ℚ) (fc : Bool),
    (runGo rows ms acc fc).map (fun e => e.1) = ms := by
  induction ms with
  | nil => intro acc fc; simp [runGo]
  | cons m ms ih =>
    intro acc fc
    simp only [runGo, List.map_cons]
    rw [ih]

lemma runGo_values (rows : RowSet) (ms : List ℤ) : ∀ (acc : ℚ) (fc : Bool),
    (runGo rows ms acc fc).map (fun e => e.2.1) =
      (List.range ms.length).map
        (fun i => acc + ((ms.take (i + 1)).map (fun m => RowSet.value (monthTotal rows m))).sum) := by
  induction ms with
  | nil => intro acc fc; simp [runGo]
  | cons m ms ih =>
    intro acc fc
    simp only [runGo, List.map_cons, List.length_cons, List.range_succ_eq_map, List.map_map]
    congr 1
    · simp
    · rw [ih (acc + RowSet.value (monthTotal rows m)) (fc || RowSet.isforecast (monthTotal rows m))]
      apply List.map_congr_left
      intro i _
      simp [Function.comp, List.take_succ_cons, add_assoc]

lemma runGo_flags (rows : RowSet) (ms : List ℤ) : ∀ (acc : ℚ) (fc : Bool),
    (runGo rows ms acc fc).map (fun e => e.2.2) =
      (List.range ms.length).map
        (fun i => fc || ((ms.take (i + 1)).any (fun m => RowSet.isforecast (monthTotal rows m)))) := by
  induction ms with
  | nil => intro acc fc; simp [runGo]
  | cons m ms ih =>
    intro acc fc
    simp only [runGo, List.map_cons, List.length_cons, List.range_succ_eq_map, List.map_map]
    congr 1
    · simp
    · rw [ih (acc + RowSet.value (monthTotal rows m)) (fc || RowSet.isforecast (monthTotal rows m))]
      apply List.map_congr_left
      intro i _
      simp [Function.comp, List.take_succ_cons, Bool.or_assoc]

/-- Claim C2: the running-balance entries of `grid_accumulate` walk the
distinct months in ascending chronological order, and the numeric running
balance of the i-th month equals the sum of the per-month totals of all
months up to and including it — the running totals are the prefix sums of
the sorted per-month totals. -/
theorem grid_running_balance_spec (rows : RowSet) :
    (runningEntries rows).map (fun e => e.1) = sortedMonths rows ∧
    List.Sorted (fun a b => a ≤ b) (sortedMonths rows) ∧
    (runningEntries rows).map (fun e => e.2.1) =
      (List.range (sortedMonths rows).length).map
        (fun i => (((sortedMonths rows).take (i + 1)).map
          (fun m => RowSet.value (monthTotal rows m))).sum) := by
  refine ⟨runGo_months rows _ 0 false, Finset.sort_sorted _ _, ?_⟩
  unfold runningEntries
  rw [runGo_values rows _ 0 false]
  apply List.map_congr_left
  intro i _
  rw [zero_add]

/-- Claim C3: a running-balance entry carries the forecast marker exactly
when some month up to and including its own has a per-month total that still
contains an unresolved forecast member; hence the marker appears on the
earliest such month and every later month, on no earlier month, and on no
month at all when no total is forecast. -/
theorem grid_forecast_taint_spec (rows : RowSet) :
    (runningEntries rows).map (fun e => e.2.2) =
      (List.range (sortedMonths rows).length).map
        (fun i => ((sortedMonths rows).take (i + 1)).any
          (fun m => RowSet.isforecast (monthTotal rows m))) := by
  unfold runningEntries
  rw [runGo_flags rows _ 0 false]
  apply List.map_congr_left
  intro i _
  rw [Bool.false_or]

lemma sum_map_filter_split {α M : Type} [AddCommMonoid M] (p : α → Bool) (g : α → M)
    (l : List α) :
    ((l.filter p).map g).sum + ((l.filter (fun a => !p a)).map g).sum = (l.map g).sum := by
  induction l with
  | nil => simp
  | cons a l ih =>
    cases hpa : p a
    · rw [List.filter_cons, if_neg (by simp [hpa]), List.filter_cons, if_pos (by simp [hpa])]
      simp only [List.map_cons, List.sum_cons]
      rw [add_left_comm, ih]
    · rw [List.filter_cons, if_pos (by simp [hpa]), List.filter_cons, if_neg (by simp [hpa])]
      simp only [List.map_cons, List.sum_cons]
      rw [add_assoc, ih]

lemma sum_fiber_aux {α κ M : Type} [DecidableEq κ] [AddCommMonoid M] (f : α → κ) (g : α → M) :
    ∀ (ks : List κ), ks.Nodup → ∀ (l : List α), (∀ a ∈ l, f a ∈ ks) →
      (ks.map (fun k => ((l.filter (fun a => decide (f a = k))).map g).sum)).sum
        = (l.map g).sum := by
  intro ks
  induction ks with
  | nil =>
    intro _ l hcov
    have hl : l = [] := by
      cases l with
      | nil => rfl
      | cons a l => exact absurd (hcov a (by simp)) (by simp)
    subst hl
    simp
  | cons k ks ih =>
    intro hnd l hcov
    rw [List.map_cons, List.sum_cons]
    have hks : ∀ k2 ∈ ks, l.filter (fun a => decide (f a = k2))
        = (l.filter (fun a => !decide (f a = k))).filter (fun a => decide (f a = k2)) := by
      intro k2 hk2
      rw [List.filter_filter]
      apply List.filter_congr
      intro a _
      by_cases hfa : f a = k2
      · have hk2k : k2 ≠ k := by
          rintro rfl
          exact (List.nodup_cons.mp hnd).1 hk2
        simp [hfa, hk2k]
      · simp [hfa]
    have hsum2 : (ks.map (fun k2 => ((l.filter (fun a => decide (f a = k2))).map g).sum)).sum
        = (ks.map (fun k2 =>
            (((l.filter (fun a => !decide (f a = k))).filter
              (fun a => decide (f a = k2))).map g).sum)).sum := by
      apply congrArg List.sum
      apply List.map_congr_left
      intro k2 hk2
      rw [hks k2 hk2]
    have hcov2 : ∀ a ∈ l.filter (fun a => !decide (f a = k)), f a ∈ ks := by
      intro a ha
      have hal : a ∈ l := List.mem_of_mem_filter ha
      have hne : ¬ f a = k := by
        have hmem := List.of_mem_filter ha
        simpa using hmem
      have hin := hcov a hal
      rw [List.mem_cons] at hin
      rcases hin with h | h
      · exact absurd h hne
      · exact h
    rw [hsum2, ih (List.nodup_cons.mp hnd).2 (l.filter (fun a => !decide (f a = k))) hcov2]
    exact sum_map_filter_split (fun a => decide (f a = k)) g l

lemma sum_fiber {α κ M : Type} [DecidableEq κ] [AddCommMonoid M] (f : α → κ) (g : α → M)
    (l : List α) :
    ((l.map f).dedup.map (fun k => ((l.filter (fun a => decide (f a = k))).map g).sum)).sum
      = (l.map g).sum := by
  apply sum_fiber_aux f g _ (List.nodup_dedup _) l
  intro a ha
  rw [List.mem_dedup]
  exact List.mem_map_of_mem f ha

lemma value_flatten (L : List RowSet) : RowSet.value L.flatten = (L.map RowSet.value).sum := by
  unfold RowSet.value
  rw [List.map_flatten, List.sum_flatten, List.map_map]
  rfl

/-- Amended claim C7: the grand total is the sum of the per-month totals; a
per-month total equals the decimal sum of that month's entire sub-collection
of the input whenever none of that month's members is a forecast record (the
claim as stated fails when a cell is forecast-reconciled, because the
superseded forecast member is dropped from the total). -/
theorem grid_month_totals (rows : RowSet) :
    (∀ m, (∀ r ∈ monthRows rows m, r.isforecast = false) →
      RowSet.value (monthTotal rows m) = RowSet.value (monthRows rows m)) ∧
    RowSet.value (grandTotal rows) =
      ((sortedMonths rows).map (fun m => RowSet.value (monthTotal rows m))).sum := by
  constructor
  · intro m hm
    unfold monthTotal monthTags groupKeys
    rw [value_flatten, List.map_map]
    have hfun : ∀ t ∈ ((monthRows rows m).map Row.hashtag).dedup,
        (RowSet.value ∘ cellRows rows m) t
          = (((monthRows rows m).filter (fun a => decide (a.hashtag = t))).map Row.value).sum := by
      intro t _
      have hcell : cellRows rows m t = groupGet Row.hashtag (monthRows rows m) t := by
        unfold cellRows
        apply forecast_filter_no_forecast
        intro r hr
        exact hm r (List.mem_of_mem_filter hr)
      simp only [Function.comp]
      rw [hcell]
      rfl
    rw [List.map_congr_left hfun]
    exact sum_fiber Row.hashtag Row.value (monthRows rows m)
  · unfold grandTotal
    rw [value_flatten, List.map_map]
    have hperm : (monthsPresent rows).Perm (sortedMonths rows) := by
      apply List.perm_of_nodup_nodup_toFinset_eq
      · exact List.nodup_dedup _
      · exact Finset.sort_nodup _ _
      · unfold sortedMonths
        rw [Finset.sort_toFinset]
        apply Finset.ext
        intro a
        simp only [List.mem_toFinset]
        unfold monthsPresent groupKeys
        exact List.mem_dedup
    exact (hperm.map _).sum_eq

/-- Counterexample collection for C7: one month, one tag, holding one
forecast member (100) and one real member (90), so the cell is reconciled
down to the real member alone. -/
def cRowsC7 : RowSet :=
  [⟨100, 0, some ("a"), true⟩, ⟨90, 0, some ("a"), false⟩]

/-- Counterexample for C7 as stated: after forecast reconciliation the
per-month total of the concrete collection is 90, while the decimal sum of
the month's entire sub-collection is 190. -/
theorem grid_month_totals_counterexample :
    RowSet.value (monthTotal cRowsC7 0) ≠ RowSet.value (monthRows cRowsC7 0) := by
  have h1 : monthRows cRowsC7 0 = cRowsC7 := by decide
  have h2 : monthTotal cRowsC7 0 = [⟨90, 0, some ("a"), false⟩] := by decide
  rw [h1, h2]
  norm_num [RowSet.value, cRowsC7]

/-- Witness collection for C7 with no forecast members. -/
def wRowsC7 : RowSet :=
  [⟨5, 0, some ("a"), false⟩, ⟨7, 0, some ("b"), false⟩]

/-- Witness for the amended C7: on a concrete forecast-free collection the
per-month total equals the month's sub-collection sum. -/
theorem grid_month_totals_witness :
    RowSet.value (monthTotal wRowsC7 0) = RowSet.value (monthRows wRowsC7 0) :=
  (grid_month_totals wRowsC7).1 0 (by decide)

/-- Embeds Python `int(...)` applied to a `Decimal` quotient under the
process-wide rounding context `decimal.ROUND_DOWN` (balance.py line 37):
both `int()` and `ROUND_DOWN` truncate toward zero, so the embedding is the
exact quotient truncated toward zero. -/
def ratTrunc (q : ℚ) : ℤ :=
  q.num.tdiv q.den

/-- Embeds `Decimal.to_integral_exact(rounding=decimal.ROUND_FLOOR)` as used
by `subp_stats` (balance.py lines 638-654) and its projection helpers
(lines 681-698): rounding toward negative infinity. -/
def to_integral_exact_floor (q : ℚ) : ℤ :=
  ⌊q⌋

/-- Modelled from the spec: the filter predicate `hashtag=~^dues:` of the
predicate language (lib/rowset.py, not under src/) — the record's hashtag
exists and begins with the characters `dues:`; a record with no hashtag
does not match. -/
def duesMatch : Option String → Bool
  | some t => ("dues:").data.isPrefixOf t.data
  | none => false

/-- Field bundle computed by `stats_rowset` (balance.py lines 513-528). -/
structure Stats where
  incoming : RowSet
  outgoing : RowSet
  dues : RowSet
  members : ℕ
  ARPM : ℤ
  other : RowSet

/-- Embeds `stats_rowset` (balance.py lines 513-528): the per-bucket splits,
the distinct-dues-tag member count, and ARPM guarded by the member count
(Python truthiness of `r['members']`). -/
def stats_rowset (rowset : RowSet) : Stats where
  incoming := rowset.filter (fun r => decide (0 < r.value))
  outgoing := rowset.filter (fun r => decide (r.value < 0))
  dues := rowset.filter (fun r => duesMatch r.hashtag)
  members := (groupKeys Row.hashtag (rowset.filter (fun r => duesMatch r.hashtag))).length
  ARPM :=
    if (groupKeys Row.hashtag (rowset.filter (fun r => duesMatch r.hashtag))).length ≠ 0 then
      ratTrunc (RowSet.value (rowset.filter (fun r => duesMatch r.hashtag))
        / ((groupKeys Row.hashtag (rowset.filter (fun r => duesMatch r.hashtag))).length : ℚ))
    else -1
  other := rowset.filter (fun r => decide (0 < r.value) && !duesMatch r.hashtag)

/-- Embeds the Average rollup ARPM of `create_stats` (balance.py lines
546-550): `int(Total dues value / Average member count / month count)`.
The source guards neither divisor, so a zero average member count (or a
zero month count) raises a decimal division error, embedded as `none`. -/
def average_ARPM (totalDues : ℚ) (avgMembers : ℤ) (nMonths : ℕ) : Option ℤ :=
  if avgMembers = 0 ∨ nMonths = 0 then none
  else some (ratTrunc (totalDues / (avgMembers : ℚ) / (nMonths : ℚ)))

/-- Embeds the month count used by the projection helpers of `subp_stats`
(balance.py lines 674-679 and 690-695): the number of month groups of the
rowset, forced to one when it is zero (the "magic column" hack). -/
def monthsHack (rowset : RowSet) : ℕ :=
  if (groupKeys Row.month rowset).length = 0 then 1 else (groupKeys Row.month rowset).length

/-- Embeds `members_given_dues_outgoing` (balance.py lines 673-683):
`abs((rowset.value / (dues * months)).to_integral_exact(ROUND_FLOOR))`.
When the total dues divisor is zero (a zero dues rate) the source raises a
decimal division error, embedded as `none`. -/
def members_given_dues_outgoing (dues : ℤ) (rowset : RowSet) : Option ℤ :=
  if (dues : ℚ) * (monthsHack rowset : ℚ) = 0 then none
  else some |to_integral_exact_floor (RowSet.value rowset / ((dues : ℚ) * (monthsHack rowset : ℚ)))|

/-- Embeds `dues_given_members_outgoing` (balance.py lines 685-698): zero
members short-circuits to 0, otherwise
`abs(rowset.value / members / months).to_integral_exact(ROUND_FLOOR)`. -/
def dues_given_members_outgoing (members : ℤ) (rowset : RowSet) : ℤ :=
  if members = 0 then 0
  else to_integral_exact_floor |RowSet.value rowset / (members : ℚ) / (monthsHack rowset : ℚ)|

lemma ratTrunc_eq_floor_of_nonneg (q : ℚ) (h : 0 ≤ q) : ratTrunc q = ⌊q⌋ := by
  unfold ratTrunc
  rw [Rat.floor_def]
  exact Int.tdiv_eq_ediv (Rat.num_nonneg.mpr h) (by positivity)

lemma ratTrunc_eq_ceil_of_nonpos (q : ℚ) (h : q ≤ 0) : ratTrunc q = ⌈q⌉ := by
  have hnum : 0 ≤ -q.num := by
    have hn := Rat.num_nonpos.mpr h
    omega
  have hden : (0 : ℤ) ≤ (q.den : ℤ) := by positivity
  have hneg : ⌊-q⌋ = (-q.num).tdiv q.den := by
    rw [Rat.floor_def, Rat.neg_num, Rat.neg_den, Int.tdiv_eq_ediv hnum hden]
  have hfn : ⌊-q⌋ = -⌈q⌉ := Int.floor_neg
  unfold ratTrunc
  rw [← neg_neg q.num, Int.neg_tdiv, ← hneg, hfn, neg_neg]

lemma stats_rowset_members_def (rowset : RowSet) :
    (stats_rowset rowset).members
      = (groupKeys Row.hashtag (rowset.filter (fun r => duesMatch r.hashtag))).length := rfl

lemma stats_rowset_dues_def (rowset : RowSet) :
    (stats_rowset rowset).dues = rowset.filter (fun r => duesMatch r.hashtag) := rfl

lemma stats_rowset_ARPM_of_members_ne (rowset : RowSet)
    (h : (stats_rowset rowset).members ≠ 0) :
    (stats_rowset rowset).ARPM
      = ratTrunc (RowSet.value (stats_rowset rowset).dues
          / ((stats_rowset rowset).members : ℚ)) := by
  rw [stats_rowset_members_def] at h
  show (if _ ≠ (0 : ℕ) then _ else (-1 : ℤ)) = _
  rw [if_pos h]
  rfl

lemma stats_rowset_ARPM_of_members_eq (rowset : RowSet)
    (h : (stats_rowset rowset).members = 0) :
    (stats_rowset rowset).ARPM = -1 := by
  rw [stats_rowset_members_def] at h
  show (if _ ≠ (0 : ℕ) then _ else (-1 : ℤ)) = _
  rw [if_neg (by omega)]

/-- Amended claim C4: the explicit display rounding of `subp_stats`
(`to_integral_exact(rounding=ROUND_FLOOR)`) rounds toward negative
infinity; the process-wide context rounding (`ROUND_DOWN`) and the ARPM
`int()` conversion truncate toward zero instead, which agrees with floor on
nonnegative values but equals the ceiling on negative values (the claim as
stated — floor everywhere, also for negatives — fails on the truncating
sites). -/
theorem rounding_policy_spec (q : ℚ) :
    to_integral_exact_floor q = ⌊q⌋ ∧
    (0 ≤ q → ratTrunc q = to_integral_exact_floor q) ∧
    (q < 0 → ratTrunc q = ⌈q⌉) := by
  refine ⟨rfl, ?_, ?_⟩
  · intro h
    rw [ratTrunc_eq_floor_of_nonneg q h]
    rfl
  · intro h
    exact ratTrunc_eq_ceil_of_nonpos q (le_of_lt h)

/-- Counterexample collection for C4: two dues rows summing to −7 across two
distinct dues tags. -/
def cRowsC4 : RowSet :=
  [⟨-3, 0, some ("dues:a"), false⟩, ⟨-4, 0, some ("dues:b"), false⟩]

/-- Counterexample for C4 as stated: the ARPM rounding during aggregation is
not a floor — on the concrete collection the code computes
`int(-7 / 2) = -3`, while flooring gives −4. -/
theorem rounding_policy_counterexample :
    (stats_rowset cRowsC4).ARPM
      ≠ to_integral_exact_floor
          (RowSet.value (stats_rowset cRowsC4).dues / ((stats_rowset cRowsC4).members : ℚ)) := by
  have hmem : (stats_rowset cRowsC4).members = 2 := by decide
  have hdues : (stats_rowset cRowsC4).dues = cRowsC4 := by decide
  have hval : RowSet.value cRowsC4 = -7 := by
    norm_num [RowSet.value, cRowsC4]
  have harpm : (stats_rowset cRowsC4).ARPM = -3 := by
    rw [stats_rowset_ARPM_of_members_ne cRowsC4 (by rw [hmem]; omega), hdues, hmem, hval]
    rw [ratTrunc_eq_ceil_of_nonpos _ (by push_cast; norm_num)]
    push_cast
    rw [show ((-7 : ℚ) / 2) = -(7 / 2) by ring, Int.ceil_neg]
    norm_num
  rw [harpm, hdues, hmem, hval]
  unfold to_integral_exact_floor
  have hfl : ⌊(-7 : ℚ) / ((2 : ℕ) : ℚ)⌋ = -4 := by
    push_cast
    norm_num
  rw [hfl]
  decide

/-- Witness for the amended C4: at the nonnegative value 7/2 the truncating
conversion agrees with the floor display rounding. -/
theorem rounding_policy_spec_witness :
    ratTrunc (7 / 2 : ℚ) = to_integral_exact_floor (7 / 2 : ℚ) :=
  (rounding_policy_spec (7 / 2)).2.1 (by norm_num)

/-- Amended claim C6: for every bucket computed by `stats_rowset` (each real
month, MonthTD and Total), ARPM is the dues total divided by the distinct
dues-member count with the quotient truncated toward zero — hence equal to
the floor whenever the dues total is nonnegative — and is the sentinel −1
when the member count is zero, never a division error; the Average rollup
instead computes `int(Total dues / Average members / month count)` with no
guard, and raises a division error exactly when its member count (or month
count) is zero. -/
theorem stats_arpm_spec (rowset : RowSet) :
    ((stats_rowset rowset).members = 0 → (stats_rowset rowset).ARPM = -1) ∧
    ((stats_rowset rowset).members ≠ 0 →
      (stats_rowset rowset).ARPM
        = ratTrunc (RowSet.value (stats_rowset rowset).dues
            / ((stats_rowset rowset).members : ℚ))) ∧
    ((stats_rowset rowset).members ≠ 0 → 0 ≤ RowSet.value (stats_rowset rowset).dues →
      (stats_rowset rowset).ARPM
        = ⌊RowSet.value (stats_rowset rowset).dues / ((stats_rowset rowset).members : ℚ)⌋) ∧
    (∀ (d : ℚ) (a : ℤ) (n : ℕ), average_ARPM d a n = none ↔ (a = 0 ∨ n = 0)) := by
  refine ⟨stats_rowset_ARPM_of_members_eq rowset, stats_rowset_ARPM_of_members_ne rowset,
    ?_, ?_⟩
  · intro h hdv
    rw [stats_rowset_ARPM_of_members_ne rowset h]
    apply ratTrunc_eq_floor_of_nonneg
    exact div_nonneg hdv (by positivity)
  · intro d a n
    unfold average_ARPM
    split
    · rename_i hcond
      exact iff_of_true rfl hcond
    · rename_i hcond
      exact iff_of_false (by simp) hcond

/-- Counterexample collection for C6: two dues rows summing to −5 across two
distinct dues tags. -/
def cRowsC6 : RowSet :=
  [⟨-2, 0, some ("dues:a"), false⟩, ⟨-3, 0, some ("dues:b"), false⟩]

/-- Counterexample for C6 as stated: on the concrete collection the code's
ARPM is `int(-5 / 2) = -2`, not the claimed floor division (−3). -/
theorem stats_arpm_counterexample :
    (stats_rowset cRowsC6).ARPM
      ≠ ⌊RowSet.value (stats_rowset cRowsC6).dues / ((stats_rowset cRowsC6).members : ℚ)⌋ := by
  have hmem : (stats_rowset cRowsC6).members = 2 := by decide
  have hdues : (stats_rowset cRowsC6).dues = cRowsC6 := by decide
  have hval : RowSet.value cRowsC6 = -5 := by
    norm_num [RowSet.value, cRowsC6]
  have harpm : (stats_rowset cRowsC6).ARPM = -2 := by
    rw [stats_rowset_ARPM_of_members_ne cRowsC6 (by rw [hmem]; omega), hdues, hmem, hval]
    rw [ratTrunc_eq_ceil_of_nonpos _ (by push_cast; norm_num)]
    push_cast
    rw [show ((-5 : ℚ) / 2) = -(5 / 2) by ring, Int.ceil_neg]
    norm_num
  rw [harpm, hdues, hmem, hval]
  have hfl : ⌊(-5 : ℚ) / ((2 : ℕ) : ℚ)⌋ = -3 := by
    push_cast
    norm_num
  rw [hfl]
  decide

/-- Witness collection for C6: one dues row of value 6. -/
def wRowsC6 : RowSet :=
  [⟨6, 0, some ("dues:a"), false⟩]

/-- Witness for the amended C6: on a concrete one-member collection the ARPM
equals the truncated quotient. -/
theorem stats_arpm_spec_witness :
    (stats_rowset wRowsC6).ARPM
      = ratTrunc (RowSet.value (stats_rowset wRowsC6).dues
          / ((stats_rowset wRowsC6).members : ℚ)) :=
  (stats_arpm_spec wRowsC6).2.1 (by decide)

lemma monthsHack_ne_zero (rowset : RowSet) : monthsHack rowset ≠ 0 := by
  unfold monthsHack
  split <;> omega

/-- Amended claim C8: `dues_given_members_outgoing` is fully guarded — a zero
member count short-circuits to 0 and the function is total — but
`members_given_dues_outgoing` only guards the zero-month case: it raises a
division error exactly when the candidate dues rate is zero (the claim as
stated — no division error for every rate including zero — fails there). -/
theorem projections_guard_spec (dues : ℤ) (rowset : RowSet) :
    (members_given_dues_outgoing dues rowset = none ↔ dues = 0) ∧
    dues_given_members_outgoing 0 rowset = 0 := by
  have hm : ((monthsHack rowset : ℚ)) ≠ 0 := by
    have h0 := monthsHack_ne_zero rowset
    exact_mod_cast h0
  constructor
  · have hiff : ((dues : ℚ) * (monthsHack rowset : ℚ) = 0) ↔ dues = 0 := by
      rw [mul_eq_zero]
      simp [hm]
    unfold members_given_dues_outgoing
    by_cases hd : dues = 0
    · rw [if_pos (hiff.mpr hd)]
      simp [hd]
    · rw [if_neg (fun hc => hd (hiff.mp hc))]
      simp [hd]
  · unfold dues_given_members_outgoing
    rw [if_pos rfl]

/-- Counterexample collection for C8: one outgoing row. -/
def cRowC8 : RowSet :=
  [⟨-10, 0, some ("rent"), false⟩]

/-- Counterexample for C8 as stated: with the candidate dues rate 0 the
members projection divides by zero (a raised decimal division error,
embedded as `none`) instead of returning a floor-divided result. -/
theorem projections_guard_counterexample :
    members_given_dues_outgoing 0 cRowC8 = none := by
  unfold members_given_dues_outgoing
  rw [if_pos (by norm_num)]

/-- Two rows collide for the duplicate check when they sit in the same
month, carry the same hashtag and have the same value (the three nested
keys of the `db[month][tag][value]` mapping, balance.py lines 753-773). -/
def sameTxn (a b : Row) : Prop :=
  a.month = b.month ∧ a.hashtag = b.hashtag ∧ a.value = b.value

instance (a b : Row) : Decidable (sameTxn a b) :=
  inferInstanceAs (Decidable (a.month = b.month ∧ a.hashtag = b.hashtag ∧ a.value = b.value))

/-- Embeds the scanning loop of `subp_check_doubletxn` (balance.py lines
752-773): walk the rows in order, skipping untagged rows, raising on the
first row that collides with an already-processed row; `seen` carries the
processed rows (the nested `db` mapping of the source holds exactly those).
The raised `ValueError` is embedded as `some (stored row, current row)`. -/
def dblGo : RowSet → RowSet → Option (Row × Row)
  | [], _ => none
  | r :: rest, seen =>
    if r.hashtag = none then dblGo rest seen
    else
      (seen.find? (fun s => decide (sameTxn s r))).elim (dblGo rest (r :: seen))
        (fun s => some (s, r))

/-- Embeds `subp_check_doubletxn` (balance.py lines 738-773): restrict to
dues-tagged rows (filter `hashtag=~^dues:`), then scan for a same-month
same-tag same-value duplicate. -/
def subp_check_doubletxn (rows : RowSet) : Option (Row × Row) :=
  dblGo (rows.filter (fun r => duesMatch r.hashtag)) []

lemma dblGo_none_iff (l : RowSet) : ∀ (seen : RowSet), (∀ r ∈ l, r.hashtag ≠ none) →
    (dblGo l seen = none ↔
      ((∀ r ∈ l, ∀ s ∈ seen, ¬ sameTxn s r) ∧ l.Pairwise (fun a b => ¬ sameTxn a b))) := by
  induction l with
  | nil =>
    intro seen _
    simp [dblGo]
  | cons r rest ih =>
    intro seen hl
    have hr : ¬ r.hashtag = none := hl r (by simp)
    have hl2 : ∀ a ∈ rest, a.hashtag ≠ none := fun a ha => hl a (List.mem_cons_of_mem r ha)
    simp only [dblGo, if_neg hr]
    cases hfind : seen.find? (fun s => decide (sameTxn s r)) with
    | none =>
      have hseen : ∀ s ∈ seen, ¬ sameTxn s r := by
        intro s hs
        have hfs := List.find?_eq_none.mp hfind s hs
        simpa using hfs
      simp only [Option.elim]
      rw [ih (r :: seen) hl2]
      constructor
      · rintro ⟨h1, h2⟩
        refine ⟨?_, List.pairwise_cons.mpr ⟨?_, h2⟩⟩
        · intro a ha s hs
          rcases List.mem_cons.mp ha with rfl | ha2
          · exact hseen s hs
          · exact h1 a ha2 s (List.mem_cons_of_mem r hs)
        · intro b hb
          exact h1 b hb r (List.mem_cons_self r seen)
      · rintro ⟨h1, h2⟩
        obtain ⟨hhead, htail⟩ := List.pairwise_cons.mp h2
        refine ⟨?_, htail⟩
        intro a ha s hs
        rcases List.mem_cons.mp hs with rfl | hs2
        · exact hhead a ha
        · exact h1 a (List.mem_cons_of_mem r ha) s hs2
    | some s =>
      have hsr : sameTxn s r := by
        have hfs := List.find?_some hfind
        simpa using hfs
      have hsmem : s ∈ seen := List.mem_of_find?_eq_some hfind
      simp only [Option.elim]
      constructor
      · intro h
        exact absurd h (by simp)
      · rintro ⟨h1, _⟩
        exact absurd hsr (h1 r (List.mem_cons_self r rest) s hsmem)

/-- Claim C9: the duplicate-transaction check completes without error
exactly when no two dues-tagged transactions of the same month share the
same hashtag and the same value — equivalently it fails fast whenever such
a pair exists. -/
theorem subp_check_doubletxn_spec (rows : RowSet) :
    subp_check_doubletxn rows = none ↔
      (rows.filter (fun r => duesMatch r.hashtag)).Pairwise (fun a b => ¬ sameTxn a b) := by
  unfold subp_check_doubletxn
  have htags : ∀ r ∈ rows.filter (fun r => duesMatch r.hashtag), r.hashtag ≠ none := by
    intro r hrmem
    have hdm : duesMatch r.hashtag = true := (List.mem_filter.mp hrmem).2
    cases h : r.hashtag with
    | none =>
      rw [h] at hdm
      exact absurd hdm (by decide)
    | some t => simp [h]
  rw [dblGo_none_iff _ [] htags]
  simp
